import Mathlib

/-!
Verification development for the restricted-markup-to-document converter in
`src/main.py` of the teacher-guide-generator repository.

The Python code (functions `clean_inner`, `html_to_platypus`, and the
flowable-selection part of `export_pdf`) is shallowly embedded here over
`List Char`.  Regular-expression operations are translated into explicit,
executable scanning functions that reproduce the deterministic behaviour of
the concrete patterns used by the source (case-insensitive literal matching,
greedy/non-greedy character classes, word boundaries, lookaheads), restricted
to the ASCII character classes (the source patterns are ASCII; the Python
`str` classes additionally cover some Unicode, which no claim depends on).
-/

namespace TG

/-- Python `\s` (ASCII part), as used by `re.match(r"\s+")` and `str.strip()`. -/
def isSpacePy (c : Char) : Bool :=
  c == ' ' || c == '\t' || c == '\n' || c == '\r' || c == '\x0b' || c == '\x0c'

/-- Python `\w` (ASCII part), used for the `\b` word-boundary checks. -/
def isWordChar (c : Char) : Bool :=
  c.isAlphanum || c == '_'

/-- Case-insensitive prefix test (the source regexes carry `re.IGNORECASE`). -/
def startsWithCI : List Char → List Char → Bool
  | [], _ => true
  | _ :: _, [] => false
  | p :: ps, c :: cs => (p.toLower == c.toLower) && startsWithCI ps cs

/-- Exact (case-sensitive) prefix test, for `str.replace` and `str.startswith`. -/
def startsWithEx : List Char → List Char → Bool
  | [], _ => true
  | _ :: _, [] => false
  | p :: ps, c :: cs => (p == c) && startsWithEx ps cs

/-- Index of the first case-insensitive occurrence of `pat` in `s`; mirrors the
non-greedy `(.*?)` followed by a literal close tag under `re.DOTALL`. -/
def findCI (pat : List Char) : List Char → Option Nat
  | [] => if startsWithCI pat [] then some 0 else none
  | c :: cs =>
    if startsWithCI pat (c :: cs) then some 0
    else (findCI pat cs).map (· + 1)

/-- Word-boundary `\b` after a word character: holds at end of input or when
the character at index `n` is not a word character. -/
def noWordAt (s : List Char) (n : Nat) : Bool :=
  match s.drop n with
  | [] => true
  | d :: _ => !isWordChar d

/-- Whether the character at index `n` is a word character (used for the `\b`
after the non-word `/` in the lookahead `br/?\b`). -/
def wordAt (s : List Char) (n : Nat) : Bool :=
  match s.drop n with
  | [] => false
  | d :: _ => isWordChar d

/-- Matches `[^>]*>` at the head of `s`: the length of the maximal `>`-free
run, provided a `>` follows it (i.e. the index of the first `>`). -/
def attrSpan : List Char → Option Nat
  | [] => none
  | c :: cs => if c == '>' then some 0 else (attrSpan cs).map (· + 1)

/-!
`re.sub` is modelled by a single left-to-right scan: at every position the
step function is tried; a match contributes its replacement (which is not
rescanned, as in Python) and the scan resumes after the matched span.  The
step function receives the whole remaining suffix and returns the replacement
together with `consumed - 1` (every pattern in the source consumes at least
one character).  Fuel equal to the input length is always sufficient because
every iteration consumes at least one input character.
-/

def scanSubF (f : List Char → Option (List Char × Nat)) : Nat → List Char → List Char
  | _, [] => []
  | 0, s => s
  | fuel + 1, c :: cs =>
    match f (c :: cs) with
    | some (rep, extra) => rep ++ scanSubF f fuel (cs.drop extra)
    | none => c :: scanSubF f fuel cs

def scanSub (f : List Char → Option (List Char × Nat)) (s : List Char) : List Char :=
  scanSubF f s.length s

/-- Matches `NAME\b[^>]*>` directly after a `<`; returns the number of
characters consumed after the `<`. -/
def openTagLen (name : List Char) (cs : List Char) : Option Nat :=
  if startsWithCI name cs && noWordAt cs name.length then
    (attrSpan (cs.drop name.length)).map (fun a => name.length + a + 1)
  else none

/-- Step for `re.sub(r"<span\b[^>]*>(.*?)</span>", r"\1", ...)`. -/
def subSpanStep (s : List Char) : Option (List Char × Nat) :=
  match s with
  | [] => none
  | c :: cs =>
    if c == '<' then
      match openTagLen "span".data cs with
      | some o =>
        let body := cs.drop o
        match findCI "</span>".data body with
        | some i => some (body.take i, o + i + 7)
        | none => none
      | none => none
    else none

/-- Step for `re.sub(r"<strong\b[^>]*>", "<b>", ...)` and the `em` variant. -/
def openRenameStep (name rep : List Char) (s : List Char) : Option (List Char × Nat) :=
  match s with
  | [] => none
  | c :: cs =>
    if c == '<' then (openTagLen name cs).map (fun o => (rep, o))
    else none

/-- Step for a case-insensitive literal replacement such as `</strong>` → `</b>`. -/
def litCIStep (pat rep : List Char) (s : List Char) : Option (List Char × Nat) :=
  if startsWithCI pat s then some (rep, pat.length - 1) else none

/-- Step for an exact literal replacement, mirroring `str.replace`. -/
def litExStep (pat rep : List Char) (s : List Char) : Option (List Char × Nat) :=
  if startsWithEx pat s then some (rep, pat.length - 1) else none

/-- Step for `re.sub(r"<br\s*/?>", "<br/>", ...)`. -/
def brStep (s : List Char) : Option (List Char × Nat) :=
  match s with
  | [] => none
  | c :: cs =>
    if c == '<' && startsWithCI "br".data cs then
      let w := ((cs.drop 2).takeWhile isSpacePy).length
      match (cs.drop 2).drop w with
      | '/' :: '>' :: _ => some ("<br/>".data, 2 + w + 2)
      | '>' :: _ => some ("<br/>".data, 2 + w + 1)
      | _ => none
    else none

/-- The lookahead `/?(?:b|i|br/?)\b` guarding the unknown-tag stripper. -/
def keepTagLA (cs : List Char) : Bool :=
  let r := match cs with
    | c :: t => if c == '/' then t else c :: t
    | [] => []
  (startsWithCI "b".data r && noWordAt r 1) ||
  (startsWithCI "i".data r && noWordAt r 1) ||
  (startsWithCI "br/".data r && wordAt r 3) ||
  (startsWithCI "br".data r && noWordAt r 2)

/-- Step for `re.sub(r"<(?!/?(?:b|i|br/?)\b)[^>]+>", "", ...)`. -/
def stripTagStep (s : List Char) : Option (List Char × Nat) :=
  match s with
  | [] => none
  | c :: cs =>
    if c == '<' && !keepTagLA cs then
      let k := (cs.takeWhile (fun d => !(d == '>'))).length
      if 0 < k && k < cs.length then some ([], k + 1) else none
    else none

/-- The fixed entity table of `clean_inner`, in source order. -/
def entityPairs : List (List Char × List Char) :=
  [("&nbsp;".data, " ".data), ("&mdash;".data, "—".data), ("&ndash;".data, "–".data),
   ("&rarr;".data, "→".data), ("&larr;".data, "←".data), ("&ldquo;".data, "“".data),
   ("&rdquo;".data, "”".data), ("&lsquo;".data, "‘".data), ("&rsquo;".data, "’".data),
   ("&hellip;".data, "…".data), ("&copy;".data, "©".data), ("&reg;".data, "®".data)]

def applyEntities (s : List Char) : List Char :=
  entityPairs.foldl (fun acc pr => scanSub (litExStep pr.1 pr.2) acc) s

/-- The lookahead `(?:amp|lt|gt|#\d+);` of the bare-ampersand escape (this sub
is compiled without `re.IGNORECASE`, hence exact matching). -/
def ampLA (cs : List Char) : Bool :=
  startsWithEx "amp;".data cs || startsWithEx "lt;".data cs || startsWithEx "gt;".data cs ||
  (match cs with
   | '#' :: t =>
     let ds := (t.takeWhile Char.isDigit).length
     0 < ds && startsWithEx ";".data (t.drop ds)
   | _ => false)

/-- Step for `re.sub(r"&(?!(?:amp|lt|gt|#\d+);)", "&amp;", ...)`. -/
def ampStep (s : List Char) : Option (List Char × Nat) :=
  match s with
  | [] => none
  | c :: cs =>
    if c == '&' && !ampLA cs then some ("&amp;".data, 0) else none

/-- Python `str.strip()` (ASCII whitespace). -/
def stripWs (s : List Char) : List Char :=
  ((s.dropWhile isSpacePy).reverse.dropWhile isSpacePy).reverse

/-- The Markup Normalizer `clean_inner` of `src/main.py`, transform by
transform in source order. -/
def clean_inner (s : List Char) : List Char :=
  let t1 := scanSub subSpanStep s
  let t2 := scanSub (openRenameStep "strong".data "<b>".data) t1
  let t3 := scanSub (litCIStep "</strong>".data "</b>".data) t2
  let t4 := scanSub (openRenameStep "em".data "<i>".data) t3
  let t5 := scanSub (litCIStep "</em>".data "</i>".data) t4
  let t6 := scanSub brStep t5
  let t7 := scanSub stripTagStep t6
  let t8 := applyEntities t7
  let t9 := scanSub ampStep t8
  stripWs t9

/-!
The Block Scanner `html_to_platypus`.  The block pattern
`<(h1|h2|h3|p|ul|ol)\b[^>]*>(.*?)</\1>` (DOTALL, IGNORECASE) is deterministic:
the six alternatives are mutually exclusive on tag names, the attribute part
is the maximal `>`-free run followed by `>`, and the non-greedy body ends at
the first case-insensitive occurrence of the matching close tag (under
IGNORECASE the backreference also matches case-insensitively).
-/

/-- Matches `NAME\b[^>]*>(.*?)</NAME>` against the suffix after a `<`;
returns the captured body and the number of characters consumed after the `<`. -/
def tryTag (t : List Char) (cs : List Char) : Option (List Char × Nat) :=
  if startsWithCI t cs && noWordAt cs t.length then
    match attrSpan (cs.drop t.length) with
    | some a =>
      let body := (cs.drop t.length).drop (a + 1)
      match findCI ("</".data ++ t ++ ">".data) body with
      | some i => some (body.take i, t.length + a + 1 + i + (t.length + 3))
      | none => none
    | none => none
  else none

/-- The recognized block-level tags, in the order of the regex alternation. -/
def blockTags : List String := ["h1", "h2", "h3", "p", "ul", "ol"]

def blockAtGo : List String → List Char → Option (String × List Char × Nat)
  | [], _ => none
  | t :: ts, cs =>
    match tryTag t.data cs with
    | some r => some (t, r.1, r.2)
    | none => blockAtGo ts cs

/-- The block match of the scan loop, applied to the suffix after a `<`. -/
def blockAt (cs : List Char) : Option (String × List Char × Nat) :=
  blockAtGo blockTags cs

/-- One candidate stop position `p` for the greedy `[^>]*` of the image
pattern `<img\b[^>]*src="([^"]+)"[^>]*/?>`: after `src="` at `p`, the source
capture is the (non-empty) run up to the first `"`, and the match ends at the
first `>` after that quote. -/
def imgTryAt (rest : List Char) (p : Nat) : Option (List Char × Nat) :=
  if startsWithCI "src=\"".data (rest.drop p) then
    let afterSrc := rest.drop (p + 5)
    let b := (afterSrc.takeWhile (fun c => !(c == '"'))).length
    if 0 < b && b < afterSrc.length then
      let afterQuote := afterSrc.drop (b + 1)
      let cpart := (afterQuote.takeWhile (fun c => !(c == '>'))).length
      if cpart < afterQuote.length then
        some (afterSrc.take b, p + 5 + b + 1 + cpart + 1)
      else none
    else none
  else none

/-- Greedy backtracking over the stop position of `[^>]*`, largest first. -/
def imgTryF (rest : List Char) : Nat → Option (List Char × Nat)
  | 0 => imgTryAt rest 0
  | p + 1 =>
    match imgTryAt rest (p + 1) with
    | some r => some r
    | none => imgTryF rest p

/-- The image match of the scan loop, applied to the suffix after a `<`;
returns the captured `src` value and the characters consumed after the `<`. -/
def imgAt (cs : List Char) : Option (List Char × Nat) :=
  if startsWithCI "img".data cs && noWordAt cs 3 then
    let rest := cs.drop 3
    let region := (rest.takeWhile (fun c => !(c == '>'))).length
    (imgTryF rest region).map (fun r => (r.1, 3 + r.2))
  else none

/-!
The Resource Loader.  `base64.b64decode` (default non-strict mode) is an
external library call; it is modelled by its documented behaviour: characters
outside the base64 alphabet are discarded, decoding fails unless the data
length modulo 4 is 0 (no padding needed) or 2/3 (completed by `=` padding).
The remote `urllib` fetch is modelled by an oracle `fetch` returning the
fetched bytes, or `none` for any failure.  `reportlab` flowable construction
is modelled as total.
-/

def isB64Char (c : Char) : Bool := c.isAlpha || c.isDigit || c == '+' || c == '/'

def b64Val (c : Char) : Nat :=
  if c.isUpper then c.toNat - 65
  else if c.isLower then c.toNat - 97 + 26
  else if c.isDigit then c.toNat - 48 + 52
  else if c == '+' then 62 else 63

def b64Bytes : List Char → List Nat
  | a :: b :: c :: d :: rest =>
    let n := b64Val a * 262144 + b64Val b * 4096 + b64Val c * 64 + b64Val d
    n / 65536 :: n / 256 % 256 :: n % 256 :: b64Bytes rest
  | [a, b] =>
    let n := b64Val a * 64 + b64Val b
    [n / 16]
  | [a, b, c] =>
    let n := b64Val a * 4096 + b64Val b * 64 + b64Val c
    [n / 1024, n / 4 % 256]
  | _ => []

def b64decodeOpt (s : List Char) : Option (List Nat) :=
  let cleaned := s.filter (fun c => isB64Char c || c == '=')
  let data := cleaned.takeWhile (fun c => !(c == '='))
  let r := data.length % 4
  if r == 0 then some (b64Bytes data)
  else if r == 1 then none
  else
    let pads := (cleaned.drop data.length).take (4 - r)
    if pads.length == 4 - r && pads.all (fun c => c == '=') then some (b64Bytes data)
    else none

/-- The image-resolution step of the scan loop: the inline `data:image` path
splits at the first comma (no comma raises, hence `none`) and base64-decodes
the payload; any other source goes to the remote fetch oracle. -/
def resolveImage (fetch : List Char → Option (List Nat)) (src : List Char) :
    Option (List Nat) :=
  if startsWithEx "data:image".data src then
    match findCI ",".data src with
    | some i => b64decodeOpt (src.drop (i + 1))
    | none => none
  else fetch src

/-!
Flowables.  `Paragraph(text, style)` is `par` with the style key of the
`build_pdf_styles` table; `Spacer(1, h*cm)` is `spacer` with `h` in
hundredths of a centimetre; `ListFlowable` keeps its items (the code emits
identical bullet lists for `ul` and `ol`); `RLImage` keeps its bytes.
-/

inductive Flowable where
  | par (style : String) (text : List Char)
  | spacer (hcm100 : Nat)
  | listF (items : List (List Char))
  | image (bytes : List Nat)
deriving DecidableEq

/-- `re.findall(r"<li\b[^>]*>(.*?)</li>", ...)` against a list body: the
per-item match, applied to the suffix after a `<`. -/
def liAt (cs : List Char) : Option (List Char × Nat) :=
  tryTag "li".data cs

/-- The non-overlapping left-to-right scan of `re.findall`. -/
def findallLiF : Nat → List Char → List (List Char)
  | _, [] => []
  | 0, _ => []
  | fuel + 1, c :: cs =>
    if c == '<' then
      match liAt cs with
      | some r => r.1 :: findallLiF fuel (cs.drop r.2)
      | none => findallLiF fuel cs
    else findallLiF fuel cs

def findall_li (s : List Char) : List (List Char) :=
  findallLiF s.length s

/-- The per-block emission of `html_to_platypus`, including the spacing
directives of the source. -/
def emitBlock (tag : String) (raw : List Char) : List Flowable :=
  let inner := clean_inner raw
  if tag == "h1" then [.par "h1" inner, .spacer 30]
  else if tag == "h2" then [.spacer 40, .par "h2" inner, .spacer 15]
  else if tag == "h3" then [.spacer 20, .par "h3" inner, .spacer 10]
  else if tag == "p" then
    if inner.isEmpty then [] else [.par "body" inner, .spacer 15]
  else
    let items := (findall_li raw).map clean_inner
    if items.isEmpty then [] else [.listF items, .spacer 20]

/-- The per-image emission: a resolved image is wrapped in spacers, a failed
resolution (the `except: pass`) emits nothing. -/
def emitImg (fetch : List Char → Option (List Nat)) (src : List Char) : List Flowable :=
  match resolveImage fetch src with
  | some bytes => [.spacer 20, .image bytes, .spacer 20]
  | none => []

/-- Characters consumed by one iteration of the scan loop at the cursor:
a whitespace run, a matched block span, a matched image span, or exactly one
character (the best-effort skip).  The value for the empty suffix is never
used by the loop (the loop has already stopped) and is set to 1. -/
def consumedAt : List Char → Nat
  | [] => 1
  | c :: cs =>
    if isSpacePy c then 1 + (cs.takeWhile isSpacePy).length
    else if c == '<' then
      match blockAt cs with
      | some r => 1 + r.2.2
      | none =>
        match imgAt cs with
        | some r => 1 + r.2
        | none => 1
    else 1

/-- Flowables emitted by one iteration of the scan loop at the cursor. -/
def emitsAt (fetch : List Char → Option (List Nat)) : List Char → List Flowable
  | [] => []
  | c :: cs =>
    if isSpacePy c then []
    else if c == '<' then
      match blockAt cs with
      | some r => emitBlock r.1 r.2.1
      | none =>
        match imgAt cs with
        | some r => emitImg fetch r.1
        | none => []
    else []

/-- The scan loop of `html_to_platypus`, fuelled; fuel equal to the remaining
input length is always sufficient since every iteration consumes at least one
character (proved below). -/
def scanGoF (fetch : List Char → Option (List Nat)) : Nat → List Char → List Flowable
  | _, [] => []
  | 0, _ => []
  | fuel + 1, c :: cs =>
    emitsAt fetch (c :: cs) ++
      scanGoF fetch fuel ((c :: cs).drop (consumedAt (c :: cs)))

/-- Number of iterations performed by the fuelled scan loop. -/
def scanItersF : Nat → List Char → Nat
  | _, [] => 0
  | 0, _ => 0
  | fuel + 1, c :: cs => 1 + scanItersF fuel ((c :: cs).drop (consumedAt (c :: cs)))

/-- `html_to_platypus` on a character list. -/
def html_to_platypus_l (fetch : List Char → Option (List Nat)) (s : List Char) :
    List Flowable :=
  scanGoF fetch s.length s

/-- `html_to_platypus` of `src/main.py`. -/
def html_to_platypus (fetch : List Char → Option (List Nat)) (s : String) :
    List Flowable :=
  html_to_platypus_l fetch s.data

/-- The flowable selection of `export_pdf`: an empty conversion result is
replaced by the placeholder paragraph. -/
def export_pdf_flow (fetch : List Char → Option (List Nat)) (s : String) :
    List Flowable :=
  let flowables := html_to_platypus fetch s
  if flowables.isEmpty then [.par "body" "No content to export.".data] else flowables

/-- Content blocks of a flow: everything except spacing directives. -/
def isSpacerF : Flowable → Bool
  | .spacer _ => true
  | _ => false

def blocksOf (l : List Flowable) : List Flowable :=
  l.filter (fun f => !isSpacerF f)

/-- The scan loop instrumented with the source span of every iteration:
each entry is (span start, span end, flowables emitted from that span). -/
def scanAnnF (fetch : List Char → Option (List Nat)) :
    Nat → Nat → List Char → List (Nat × Nat × List Flowable)
  | _, _, [] => []
  | 0, _, _ => []
  | fuel + 1, pos, c :: cs =>
    (pos, pos + consumedAt (c :: cs), emitsAt fetch (c :: cs)) ::
      scanAnnF fetch fuel (pos + consumedAt (c :: cs))
        ((c :: cs).drop (consumedAt (c :: cs)))

/-- Adjacent spans are ordered: every span ends no later than the next starts. -/
def spanChainOk : List (Nat × Nat × List Flowable) → Bool
  | [] => true
  | [_] => true
  | x :: y :: t => Nat.ble x.2.1 y.1 && spanChainOk (y :: t)

/-- Concatenation of the per-span emissions, in span order. -/
def flatEmits : List (Nat × Nat × List Flowable) → List Flowable
  | [] => []
  | e :: t => e.2.2 ++ flatEmits t

/-- Inline runs of the RichText data model.  Modelled from the spec (section
3): a normalized fragment is read as a sequence of plain, bold and italic
runs plus line-break markers, interpreting the two canonical inline markers
and the normalized line break produced by the Markup Normalizer. -/
inductive Run where
  | plain (t : List Char)
  | bold (t : List Char)
  | italic (t : List Char)
  | brk
deriving DecidableEq

def specRichRunsF : Nat → List Char → List Run
  | _, [] => []
  | 0, _ => []
  | fuel + 1, c :: cs =>
    if startsWithEx "<b>".data (c :: cs) then
      match findCI "</b>".data ((c :: cs).drop 3) with
      | some i =>
        Run.bold (((c :: cs).drop 3).take i) ::
          specRichRunsF fuel ((c :: cs).drop (3 + i + 4))
      | none => [Run.plain (c :: cs)]
    else if startsWithEx "<i>".data (c :: cs) then
      match findCI "</i>".data ((c :: cs).drop 3) with
      | some i =>
        Run.italic (((c :: cs).drop 3).take i) ::
          specRichRunsF fuel ((c :: cs).drop (3 + i + 4))
      | none => [Run.plain (c :: cs)]
    else if startsWithEx "<br/>".data (c :: cs) then
      Run.brk :: specRichRunsF fuel ((c :: cs).drop 5)
    else
      let t := (c :: cs).takeWhile (fun d => !(d == '<'))
      if t.isEmpty then Run.plain [c] :: specRichRunsF fuel cs
      else Run.plain t :: specRichRunsF fuel ((c :: cs).drop t.length)

/-- Reading of a normalized fragment as RichText runs (spec section 3). -/
def specRichRuns (s : List Char) : List Run :=
  specRichRunsF s.length s

/-! Helper lemmas about the scan loop. -/

/-- Every iteration of the scan loop consumes at least one character. -/
theorem consumedAt_pos (s : List Char) : 1 ≤ consumedAt s := by
  cases s with
  | nil => simp [consumedAt]
  | cons c cs =>
    simp only [consumedAt]
    repeat' split
    all_goals omega

/-- Any fuel of at least the remaining input length computes the same scan
result: the loop terminates within `length` iterations. -/
theorem scanGoF_fuel (fetch : List Char → Option (List Nat)) :
    ∀ (f1 : Nat) (s : List Char) (f2 : Nat), s.length ≤ f1 → s.length ≤ f2 →
      scanGoF fetch f1 s = scanGoF fetch f2 s := by
  intro f1
  induction f1 with
  | zero =>
    intro s f2 h1 _
    have hs : s = [] := List.eq_nil_of_length_eq_zero (Nat.le_zero.mp h1)
    subst hs
    cases f2 <;> simp [scanGoF]
  | succ a ih =>
    intro s f2 h1 h2
    cases s with
    | nil => cases f2 <;> simp [scanGoF]
    | cons c cs =>
      cases f2 with
      | zero => simp at h2
      | succ b =>
        simp only [scanGoF]
        congr 1
        have hpos := consumedAt_pos (c :: cs)
        have hd := List.length_drop (consumedAt (c :: cs)) (c :: cs)
        apply ih
        · simp only [hd, List.length_cons]
          simp only [List.length_cons] at h1
          omega
        · simp only [hd, List.length_cons]
          simp only [List.length_cons] at h2
          omega

/-- The iteration count is bounded by the fuel. -/
theorem scanItersF_le (fuel : Nat) : ∀ s : List Char, scanItersF fuel s ≤ fuel := by
  induction fuel with
  | zero => intro s; cases s <;> simp [scanItersF]
  | succ a ih =>
    intro s
    cases s with
    | nil => simp [scanItersF]
    | cons c cs =>
      simp only [scanItersF]
      have := ih ((c :: cs).drop (consumedAt (c :: cs)))
      omega

/-- The first recorded span of the instrumented scan starts at the cursor. -/
theorem scanAnnF_head (fetch : List Char → Option (List Nat)) (fuel pos : Nat)
    (s : List Char) (e : Nat × Nat × List Flowable)
    (t : List (Nat × Nat × List Flowable))
    (h : scanAnnF fetch fuel pos s = e :: t) : e.1 = pos := by
  cases s with
  | nil => simp [scanAnnF] at h
  | cons c cs =>
    cases fuel with
    | zero => simp [scanAnnF] at h
    | succ a =>
      simp only [scanAnnF] at h
      injection h with h1 _
      simp [← h1]

/-- Every recorded span has positive width. -/
theorem scanAnnF_width (fetch : List Char → Option (List Nat)) :
    ∀ (fuel pos : Nat) (s : List Char),
      ((scanAnnF fetch fuel pos s).all fun e => decide (e.1 < e.2.1)) = true := by
  intro fuel
  induction fuel with
  | zero => intro pos s; cases s <;> simp [scanAnnF]
  | succ a ih =>
    intro pos s
    cases s with
    | nil => simp [scanAnnF]
    | cons c cs =>
      simp only [scanAnnF, List.all_cons, Bool.and_eq_true]
      refine ⟨?_, ih _ _⟩
      have := consumedAt_pos (c :: cs)
      simp only [decide_eq_true_eq]
      omega

/-- Recorded spans are non-overlapping and in input order. -/
theorem scanAnnF_chain (fetch : List Char → Option (List Nat)) :
    ∀ (fuel pos : Nat) (s : List Char),
      spanChainOk (scanAnnF fetch fuel pos s) = true := by
  intro fuel
  induction fuel with
  | zero => intro pos s; cases s <;> simp [scanAnnF, spanChainOk]
  | succ a ih =>
    intro pos s
    cases s with
    | nil => simp [scanAnnF, spanChainOk]
    | cons c cs =>
      simp only [scanAnnF]
      rcases hr : scanAnnF fetch a (pos + consumedAt (c :: cs))
          ((c :: cs).drop (consumedAt (c :: cs))) with _ | ⟨y, t⟩
      · simp [spanChainOk]
      · have hy : y.1 = pos + consumedAt (c :: cs) :=
          scanAnnF_head fetch _ _ _ _ _ hr
        have hc := ih (pos + consumedAt (c :: cs))
          ((c :: cs).drop (consumedAt (c :: cs)))
        rw [hr] at hc
        simp [spanChainOk, hy, hc, Nat.ble_eq]

/-- A scan over a single recognized block: when the block match at a leading
`<` covers the whole input, the loop performs one iteration and emits exactly
that block's flowables. -/
theorem scan_single (fetch : List Char → Option (List Nat)) (cs0 : List Char)
    (t : String) (inner : List Char) (m : Nat)
    (hb : blockAt cs0 = some (t, inner, m)) (hm : cs0.length = m) :
    scanGoF fetch (cs0.length + 1) ('<' :: cs0) = emitBlock t inner := by
  have hsp : isSpacePy '<' = false := rfl
  have hlt : ('<' == '<') = true := rfl
  have hcons : consumedAt ('<' :: cs0) = 1 + m := by
    simp [consumedAt, hsp, hlt, hb]
  have hemit : emitsAt fetch ('<' :: cs0) = emitBlock t inner := by
    simp [emitsAt, hsp, hlt, hb]
  simp only [scanGoF, hemit, hcons]
  have hdrop : ('<' :: cs0).drop (1 + m) = [] := by
    apply List.drop_eq_nil_of_le
    simp only [List.length_cons, hm]
    omega
  rw [hdrop]
  cases cs0.length <;> simp [scanGoF]

/-- The block match on `ul>` followed by a body whose first close tag is the
final `</ul>`. -/
theorem tryTag_ul (inner : List Char)
    (h : findCI "</ul>".data (inner ++ "</ul>".data) = some inner.length) :
    tryTag "ul".data ("ul>".data ++ (inner ++ "</ul>".data)) =
      some (inner, inner.length + 8) := by
  unfold tryTag
  rw [if_pos (show (startsWithCI "ul".data ("ul>".data ++ (inner ++ "</ul>".data)) &&
    noWordAt ("ul>".data ++ (inner ++ "</ul>".data)) ("ul".data).length) = true from rfl)]
  have ha : attrSpan (("ul>".data ++ (inner ++ "</ul>".data)).drop ("ul".data).length) =
      some 0 := rfl
  rw [ha]
  simp only []
  have hpat : ("</".data ++ "ul".data ++ ">".data) = "</ul>".data := rfl
  have hbody : (("ul>".data ++ (inner ++ "</ul>".data)).drop ("ul".data).length).drop (0 + 1) =
      inner ++ "</ul>".data := rfl
  simp only [hpat, hbody, h]
  rw [List.take_left]
  norm_num
  omega

/-- The same for `ol`. -/
theorem tryTag_ol (inner : List Char)
    (h : findCI "</ol>".data (inner ++ "</ol>".data) = some inner.length) :
    tryTag "ol".data ("ol>".data ++ (inner ++ "</ol>".data)) =
      some (inner, inner.length + 8) := by
  unfold tryTag
  rw [if_pos (show (startsWithCI "ol".data ("ol>".data ++ (inner ++ "</ol>".data)) &&
    noWordAt ("ol>".data ++ (inner ++ "</ol>".data)) ("ol".data).length) = true from rfl)]
  have ha : attrSpan (("ol>".data ++ (inner ++ "</ol>".data)).drop ("ol".data).length) =
      some 0 := rfl
  rw [ha]
  simp only []
  have hpat : ("</".data ++ "ol".data ++ ">".data) = "</ol>".data := rfl
  have hbody : (("ol>".data ++ (inner ++ "</ol>".data)).drop ("ol".data).length).drop (0 + 1) =
      inner ++ "</ol>".data := rfl
  simp only [hpat, hbody, h]
  rw [List.take_left]
  norm_num
  omega

/-- The block alternation on a `ul` block: the earlier alternatives fail on
the tag name. -/
theorem blockAt_ul (inner : List Char)
    (h : findCI "</ul>".data (inner ++ "</ul>".data) = some inner.length) :
    blockAt ("ul>".data ++ (inner ++ "</ul>".data)) =
      some ("ul", inner, inner.length + 8) := by
  have e1 : tryTag "h1".data ("ul>".data ++ (inner ++ "</ul>".data)) = none := rfl
  have e2 : tryTag "h2".data ("ul>".data ++ (inner ++ "</ul>".data)) = none := rfl
  have e3 : tryTag "h3".data ("ul>".data ++ (inner ++ "</ul>".data)) = none := rfl
  have e4 : tryTag "p".data ("ul>".data ++ (inner ++ "</ul>".data)) = none := rfl
  simp only [blockAt, blockTags, blockAtGo, e1, e2, e3, e4, tryTag_ul inner h]

/-- The block alternation on an `ol` block. -/
theorem blockAt_ol (inner : List Char)
    (h : findCI "</ol>".data (inner ++ "</ol>".data) = some inner.length) :
    blockAt ("ol>".data ++ (inner ++ "</ol>".data)) =
      some ("ol", inner, inner.length + 8) := by
  have e1 : tryTag "h1".data ("ol>".data ++ (inner ++ "</ol>".data)) = none := rfl
  have e2 : tryTag "h2".data ("ol>".data ++ (inner ++ "</ol>".data)) = none := rfl
  have e3 : tryTag "h3".data ("ol>".data ++ (inner ++ "</ol>".data)) = none := rfl
  have e4 : tryTag "p".data ("ol>".data ++ (inner ++ "</ol>".data)) = none := rfl
  have e5 : tryTag "ul".data ("ol>".data ++ (inner ++ "</ol>".data)) = none := rfl
  simp only [blockAt, blockTags, blockAtGo, e1, e2, e3, e4, e5, tryTag_ol inner h]

/-- The instrumented scan is a refinement of the plain scan: concatenating
the per-span emissions in span order gives exactly the flow. -/
theorem scanAnnF_flat (fetch : List Char → Option (List Nat)) :
    ∀ (fuel pos : Nat) (s : List Char),
      flatEmits (scanAnnF fetch fuel pos s) = scanGoF fetch fuel s := by
  intro fuel
  induction fuel with
  | zero => intro pos s; cases s <;> simp [scanAnnF, scanGoF, flatEmits]
  | succ a ih =>
    intro pos s
    cases s with
    | nil => simp [scanAnnF, scanGoF, flatEmits]
    | cons c cs =>
      simp only [scanAnnF, scanGoF, flatEmits]
      rw [ih]


/-- The single-quote character, written by code point, to build test inputs. -/
def sq : Char := Char.ofNat 39

/-- An image tag whose `src` attribute value is single-quoted. -/
def imgSingleQuoted : List Char :=
  "<img src=".data ++ [sq] ++ "x.png".data ++ [sq] ++ ">".data

/-! The claims. -/

/-- C1 (counterexample): an unrecognized named entity does NOT pass through
`clean_inner` verbatim: the input `&foo;` is rewritten to `&amp;foo;`,
because the bare-ampersand escape only exempts `&amp;`, `&lt;`, `&gt;` and
numeric references, not arbitrary named entities. -/
theorem c1_unrecognized_entity_counterexample :
    clean_inner "&foo;".data ≠ "&foo;".data := by decide

/-- C1 (amended): each entity of the fixed recognized table is decoded by
`clean_inner` to its literal character, and a literal `&` is left unchanged
exactly when it begins `&amp;`, `&lt;`, `&gt;` or a numeric reference
`&#digits;`; every other `&` — including the leading `&` of any other
unrecognized named entity — is rewritten to `&amp;`, the remaining entity
text passing through unchanged. -/
theorem c1_entity_normalization :
    clean_inner "a&nbsp;b".data = "a b".data ∧
    clean_inner "a&mdash;b".data = "a—b".data ∧
    clean_inner "a&ndash;b".data = "a–b".data ∧
    clean_inner "a&rarr;b".data = "a→b".data ∧
    clean_inner "a&larr;b".data = "a←b".data ∧
    clean_inner "a&ldquo;b".data = "a“b".data ∧
    clean_inner "a&rdquo;b".data = "a”b".data ∧
    clean_inner "a&lsquo;b".data = "a‘b".data ∧
    clean_inner "a&rsquo;b".data = "a’b".data ∧
    clean_inner "a&hellip;b".data = "a…b".data ∧
    clean_inner "a&copy;b".data = "a©b".data ∧
    clean_inner "a&reg;b".data = "a®b".data ∧
    clean_inner "a&foo;b".data = "a&amp;foo;b".data ∧
    clean_inner "a&amp;b".data = "a&amp;b".data ∧
    clean_inner "a&lt;b".data = "a&lt;b".data ∧
    clean_inner "a&gt;b".data = "a&gt;b".data ∧
    clean_inner "a&#8212;b".data = "a&#8212;b".data ∧
    clean_inner "a & b".data = "a &amp; b".data := by decide

/-- C2: the scan loop of `html_to_platypus` terminates on every input: each
iteration consumes at least one character, the number of iterations is
bounded by the input length, and any fuel of at least the input length
computes the same (total, non-raising) result as the canonical fuel. -/
theorem c2_scanner_terminates (c : Char) (cs : List Char)
    (fetch : List Char → Option (List Nat)) (k : Nat) (s : List Char) :
    1 ≤ consumedAt (c :: cs) ∧
    scanItersF s.length s ≤ s.length ∧
    scanGoF fetch (s.length + k) s = html_to_platypus_l fetch s :=
  ⟨consumedAt_pos _, scanItersF_le _ _,
    scanGoF_fuel fetch (s.length + k) s s.length (by omega) (Nat.le_refl _)⟩

/-- C3: the flow handed to the renderer by `export_pdf` is never empty; when
conversion yields no flowables, exactly the placeholder paragraph
"No content to export." is substituted, so the empty input yields a
length-one flow. -/
theorem c3_flow_never_empty (fetch : List Char → Option (List Nat)) (s : String) :
    export_pdf_flow fetch s ≠ [] ∧
    export_pdf_flow fetch "" = [Flowable.par "body" "No content to export.".data] ∧
    (export_pdf_flow fetch "").length = 1 := by
  refine ⟨?_, rfl, rfl⟩
  have e : export_pdf_flow fetch s =
      if (html_to_platypus fetch s).isEmpty
      then [Flowable.par "body" "No content to export.".data]
      else html_to_platypus fetch s := rfl
  rw [e]
  rcases html_to_platypus fetch s with _ | ⟨x, xs⟩ <;> simp

/-- C4: Scenario 1 — the input `<h1>Title</h1><p>Hello <strong>World</strong></p>`
yields exactly two content blocks in order, a level-1 heading "Title" and a
paragraph whose normalized rich text is the plain run "Hello " followed by
the canonical bold run "World". -/
theorem c4_scenario_one (fetch : List Char → Option (List Nat)) :
    blocksOf (html_to_platypus fetch "<h1>Title</h1><p>Hello <strong>World</strong></p>") =
      [Flowable.par "h1" "Title".data, Flowable.par "body" "Hello <b>World</b>".data] ∧
    specRichRuns "Hello <b>World</b>".data =
      [Run.plain "Hello ".data, Run.bold "World".data] :=
  ⟨rfl, by decide⟩

/-- C5: a paragraph block whose normalized inner text is empty emits nothing,
and Scenario 3: `<p></p><h2>X</h2>` yields only the level-2 heading "X"
(plus its spacing directives). -/
theorem c5_empty_paragraph_omitted (fetch : List Char → Option (List Nat))
    (raw : List Char) :
    emitBlock "p" raw =
      (if (clean_inner raw).isEmpty then []
       else [Flowable.par "body" (clean_inner raw), Flowable.spacer 15]) ∧
    html_to_platypus fetch "<p></p><h2>X</h2>" =
      [Flowable.spacer 40, Flowable.par "h2" "X".data, Flowable.spacer 15] ∧
    blocksOf (html_to_platypus fetch "<p></p><h2>X</h2>") =
      [Flowable.par "h2" "X".data] :=
  ⟨by simp [emitBlock], rfl, rfl⟩

/-- C6: a `ul` or `ol` block spanning the input converts to exactly its
per-block emission; that emission is empty when the inner span holds zero
`<li>…</li>` pairs and otherwise is one list whose items are the normalized
item bodies, one per pair, in input order.  Scenario instances: a two-item
list and an item-less list through the whole pipeline. -/
theorem c6_list_blocks (inner : List Char) (fetch : List Char → Option (List Nat)) :
    (findCI "</ul>".data (inner ++ "</ul>".data) = some inner.length →
      html_to_platypus_l fetch ("<ul>".data ++ inner ++ "</ul>".data) =
        emitBlock "ul" inner) ∧
    (findCI "</ol>".data (inner ++ "</ol>".data) = some inner.length →
      html_to_platypus_l fetch ("<ol>".data ++ inner ++ "</ol>".data) =
        emitBlock "ol" inner) ∧
    emitBlock "ul" inner =
      (if ((findall_li inner).map clean_inner).isEmpty then []
       else [Flowable.listF ((findall_li inner).map clean_inner), Flowable.spacer 20]) ∧
    emitBlock "ol" inner = emitBlock "ul" inner ∧
    blocksOf (html_to_platypus fetch "<ul><li>One</li><li>Two</li></ul>") =
      [Flowable.listF ["One".data, "Two".data]] ∧
    blocksOf (html_to_platypus fetch "<ul>no items here</ul>") = [] := by
  refine ⟨?_, ?_, by simp [emitBlock], by simp [emitBlock], rfl, rfl⟩
  · intro h
    have hb := blockAt_ul inner h
    have hm : ("ul>".data ++ (inner ++ "</ul>".data)).length = inner.length + 8 := by
      have h3 : ("ul>".data).length = 3 := rfl
      have h5 : ("</ul>".data).length = 5 := rfl
      simp only [List.length_append, h3, h5]
      omega
    have hs := scan_single fetch ("ul>".data ++ (inner ++ "</ul>".data)) "ul" inner
      (inner.length + 8) hb hm
    have e : html_to_platypus_l fetch ("<ul>".data ++ inner ++ "</ul>".data) =
        scanGoF fetch (("ul>".data ++ (inner ++ "</ul>".data)).length + 1)
          ('<' :: ("ul>".data ++ (inner ++ "</ul>".data))) := rfl
    rw [e]
    exact hs
  · intro h
    have hb := blockAt_ol inner h
    have hm : ("ol>".data ++ (inner ++ "</ol>".data)).length = inner.length + 8 := by
      have h3 : ("ol>".data).length = 3 := rfl
      have h5 : ("</ol>".data).length = 5 := rfl
      simp only [List.length_append, h3, h5]
      omega
    have hs := scan_single fetch ("ol>".data ++ (inner ++ "</ol>".data)) "ol" inner
      (inner.length + 8) hb hm
    have e : html_to_platypus_l fetch ("<ol>".data ++ inner ++ "</ol>".data) =
        scanGoF fetch (("ol>".data ++ (inner ++ "</ol>".data)).length + 1)
          ('<' :: ("ol>".data ++ (inner ++ "</ol>".data))) := rfl
    rw [e]
    exact hs

/-- C6 witness: the general list-block statements at the concrete inner span
`<li>A</li>`, discharging the first-close-tag hypotheses. -/
theorem c6_list_blocks_witness :
    html_to_platypus_l (fun _ => none) ("<ul>".data ++ "<li>A</li>".data ++ "</ul>".data) =
      emitBlock "ul" "<li>A</li>".data ∧
    html_to_platypus_l (fun _ => none) ("<ol>".data ++ "<li>A</li>".data ++ "</ol>".data) =
      emitBlock "ol" "<li>A</li>".data :=
  ⟨(c6_list_blocks "<li>A</li>".data (fun _ => none)).1 (by decide),
   (c6_list_blocks "<li>A</li>".data (fun _ => none)).2.1 (by decide)⟩

/-- C7: an image whose resource resolution fails emits nothing, while
scanning continues past the tag: with a comma-less data reference, an
invalid base64 payload, or a failing remote fetch, the surrounding blocks
still appear in order and conversion returns normally. -/
theorem c7_failed_image_dropped (src : List Char)
    (fetch : List Char → Option (List Nat)) :
    (resolveImage fetch src = none → emitImg fetch src = []) ∧
    blocksOf (html_to_platypus fetch "<p>A</p><img src=\"data:image\"/><p>B</p>") =
      [Flowable.par "body" "A".data, Flowable.par "body" "B".data] ∧
    blocksOf (html_to_platypus fetch
        "<p>A</p><img src=\"data:image/png;base64,abc\"/><p>B</p>") =
      [Flowable.par "body" "A".data, Flowable.par "body" "B".data] ∧
    blocksOf (html_to_platypus (fun _ => none) "<p>A</p><img src=\"http://e/i.png\"/><p>B</p>") =
      [Flowable.par "body" "A".data, Flowable.par "body" "B".data] := by
  refine ⟨fun h => ?_, rfl, rfl, by decide⟩
  simp [emitImg, h]

/-- C7 witness: a failing resolution at the concrete comma-less data
reference `data:image`. -/
theorem c7_failed_image_dropped_witness :
    emitImg (fun _ => none) "data:image".data = [] :=
  (c7_failed_image_dropped "data:image".data (fun _ => none)).1 (by decide)

/-- C8: emitted blocks appear in exactly input order: the instrumented scan
records one source span per iteration; every span has positive width, the
spans are pairwise non-overlapping and increasing, and concatenating the
per-span emissions in span order is exactly the flow — so no reordering
and no merging across source blocks occurs. -/
theorem c8_blocks_in_input_order (fetch : List Char → Option (List Nat)) (s : String) :
    ((scanAnnF fetch s.data.length 0 s.data).all fun e => decide (e.1 < e.2.1)) = true ∧
    spanChainOk (scanAnnF fetch s.data.length 0 s.data) = true ∧
    flatEmits (scanAnnF fetch s.data.length 0 s.data) = html_to_platypus fetch s :=
  ⟨scanAnnF_width fetch _ _ _, scanAnnF_chain fetch _ _ _, scanAnnF_flat fetch _ _ _⟩

/-- C9: headings are emitted unconditionally — unlike paragraphs there is no
emptiness check, so `<h1></h1>` still emits a heading paragraph with empty
text plus its spacing directive. -/
theorem c9_empty_heading_kept (raw : List Char)
    (fetch : List Char → Option (List Nat)) :
    emitBlock "h1" raw = [Flowable.par "h1" (clean_inner raw), Flowable.spacer 30] ∧
    emitBlock "h2" raw =
      [Flowable.spacer 40, Flowable.par "h2" (clean_inner raw), Flowable.spacer 15] ∧
    emitBlock "h3" raw =
      [Flowable.spacer 20, Flowable.par "h3" (clean_inner raw), Flowable.spacer 10] ∧
    html_to_platypus fetch "<h1></h1>" = [Flowable.par "h1" [], Flowable.spacer 30] ∧
    blocksOf (html_to_platypus fetch "<h1></h1>") = [Flowable.par "h1" []] ∧
    html_to_platypus fetch "<p></p>" = [] :=
  ⟨by simp [emitBlock], by simp [emitBlock], by simp [emitBlock], rfl, rfl, rfl⟩

/-- C10: an `img` tag whose `src` value is not double-quoted (single-quoted,
unquoted, or absent) never matches the image rule: the image match fails,
the cursor advances by exactly one character at the `<` (best-effort skip),
nothing is emitted for it, and surrounding blocks are unaffected. -/
theorem c10_unquoted_img_skipped (fetch : List Char → Option (List Nat)) :
    imgAt (imgSingleQuoted.drop 1) = none ∧
    consumedAt imgSingleQuoted = 1 ∧
    html_to_platypus_l fetch imgSingleQuoted = [] ∧
    blocksOf (html_to_platypus_l fetch
        ("<p>A</p>".data ++ imgSingleQuoted ++ "<p>B</p>".data)) =
      [Flowable.par "body" "A".data, Flowable.par "body" "B".data] ∧
    html_to_platypus fetch "<img src=x.png>" = [] ∧
    html_to_platypus fetch "<img>" = [] :=
  ⟨rfl, rfl, rfl, rfl, rfl, rfl⟩

end TG
